import Mathlib

/-!
Verification of the `fileDAG` graph model and SVG annotation pipeline
(`fileDAG.py`).

The Python code is shallowly embedded: Python strings are Lean `String`s
(operated on through their character lists, since Python string operations
are code-point based), Python dicts keyed by strings are modelled either as
lookup functions or as association lists (Python dicts preserve insertion
order, and structural dict equality on descriptors built with a fixed key
set coincides with field-wise equality), Python lists are Lean lists, and
the Python floats produced by `round(i*step, 3)` are modelled as exact
rationals rounded to three decimal places (`round3`); the float error of
about `1e-16` is far below the `5e-4` rounding granularity, so the modelled
values agree with the executed ones at every input considered here.
Code that can raise (`ZeroDivisionError` in `rainbow`, `IndexError` and
`KeyError` subscripts) is modelled with `Option`, `none` standing for the
raised exception.
-/

namespace FileDAG

/-! ## Character-list string primitives -/

/-- Python `pat in s` on character lists: `pat` occurs as a contiguous
run (always true for the empty pattern). -/
def infixOf (pat : List Char) : List Char → Bool
  | [] => pat.isEmpty
  | a :: rest => pat.isPrefixOf (a :: rest) || infixOf pat rest

/-- Python `pat in s` for strings. -/
def strIn (pat s : String) : Bool := infixOf pat.data s.data

/-- Python `s.replace(old, new)`, fuelled so that it is structurally
recursive (the kernel cannot reduce well-founded recursion): each step
consumes at least one character, so any `fuel ≥ l.length` computes the
replacement.  Occurrences are replaced non-overlapping, left to right. -/
def replaceListF (old new : List Char) : Nat → List Char → List Char
  | _, [] => []
  | 0, l => l
  | fuel + 1, a :: rest =>
    if old ≠ [] ∧ old.isPrefixOf (a :: rest) then
      new ++ replaceListF old new fuel ((a :: rest).drop old.length)
    else
      a :: replaceListF old new fuel rest

/-- Python `l.replace(old, new)` on character lists.  (All uses in the
source have a non-empty `old`; for `old = []` this returns `l`.) -/
def replaceList (old new : List Char) (l : List Char) : List Char :=
  replaceListF old new l.length l

/-- Python `s.replace(old, new)` for strings. -/
def strReplace (old new s : String) : String :=
  String.mk (replaceList old.data new.data s.data)

/-- Python `s.lstrip(chars)`: drop leading characters belonging to the set. -/
def lstripSet (chars : List Char) : List Char → List Char
  | [] => []
  | a :: rest => if a ∈ chars then lstripSet chars rest else a :: rest

/-- Python `s.rstrip(chars)`: drop trailing characters belonging to the set. -/
def rstripSet (chars : List Char) (l : List Char) : List Char :=
  (lstripSet chars l.reverse).reverse

/-- Python `s.split(sep)[0]` for a non-empty separator: the characters
before the first occurrence of `sep` (the whole list if `sep` is absent). -/
def takeBeforeSep (sep : List Char) : List Char → List Char
  | [] => []
  | a :: rest =>
    if sep ≠ [] ∧ sep.isPrefixOf (a :: rest) then []
    else a :: takeBeforeSep sep rest

/-- Python `s.startswith(pre)`. -/
def startsWithStr (pre s : String) : Bool := pre.data.isPrefixOf s.data

/-- Python string `<=` (code-point lexicographic), on character lists. -/
def lexLeB : List Char → List Char → Bool
  | [], _ => true
  | _ :: _, [] => false
  | a :: as, b :: bs => if a < b then true else if b < a then false else lexLeB as bs

/-- Python string `<=` as a relation on `String`. -/
def strLe (a b : String) : Prop := lexLeB a.data b.data = true

instance : DecidableRel strLe :=
  fun a b => inferInstanceAs (Decidable (lexLeB a.data b.data = true))

/-- Python `sorted(set(xs))` for strings: distinct values in ascending
code-point lexicographic order. -/
def sortedSetStr (l : List String) : List String :=
  List.insertionSort strLe l.dedup

/-! ## The node descriptor data model

`parse_detailed_summary` builds every descriptor dict with exactly the keys
`node, date, rule, version, status, plan` (in that insertion order), so a
descriptor is modelled as a fixed-shape record; Python's structural dict
equality then coincides with `DecidableEq`. -/

structure NodeDesc where
  node : String
  date : String
  rule : String
  version : String
  status : String
  plan : String
deriving DecidableEq

/-- One `(source-descriptor, target-descriptor)` pair of the normalizer. -/
abbrev EdgePair := NodeDesc × NodeDesc

/-- A source descriptor as built by `parse_detailed_summary`: every
metadata field blank. -/
def srcDesc (node : String) : NodeDesc :=
  { node := node, date := "", rule := "", version := "", status := "", plan := "" }

/-- The key pair `(s["node"], t["node"])` of an edge pair. -/
def keyPair (p : EdgePair) : String × String := (p.1.node, p.2.node)

/-! ## Digraph.__init__ -/

/-- The dedup loop of `Digraph.__init__`:
`for e in edge_list: if e not in self.edge_list: self.edge_list.append(e)`,
with `acc` the growing `self.edge_list` (stated for any type with
decidable equality, Python's `in` being structural equality). -/
def dedupAppend [DecidableEq α] (acc : List α) : List α → List α
  | [] => acc
  | e :: rest => if e ∈ acc then dedupAppend acc rest else dedupAppend (acc ++ [e]) rest

/-- `self.edge_list` after the dedup loop. -/
def dedupEdges (input : List EdgePair) : List EdgePair := dedupAppend [] input

/-- The spec's words for the dedup invariant — "each pair exactly once,
in first-seen order" — as a definition: keep the first occurrence of
each element, dropping all later ones.  `edges()` is compared against
this in the amended claim C3. -/
def firstSeenDedup [DecidableEq α] : List α → List α
  | [] => []
  | a :: rest => a :: firstSeenDedup (rest.filter (fun x => x ≠ a))
termination_by l => l.length
decreasing_by
  simp only [List.length_cons]
  exact Nat.lt_succ_of_le (List.length_filter_le _ _)

/-- `self.nodes_raw` as a lookup function: the dict comprehension
`{ t["node"]:t for _, t in self.edge_list }` maps a key to its last target
occurrence, and the follow-up loop fills in keys only seen as sources with
their first source occurrence, never overwriting an existing entry. -/
def nodesRawFn (el : List EdgePair) (key : String) : Option NodeDesc :=
  match el.reverse.find? (fun p => p.2.node == key) with
  | some p => some p.2
  | none => (el.find? (fun p => p.1.node == key)).map Prod.fst

/-- `split("/")[0]` of a node key (`node_path_attrs`' `basedir`). -/
def basedirOf (node : String) : String :=
  String.mk (takeBeforeSep ['/'] node.data)

/-- `split("/")[-1]` of a node key (`node_path_attrs`' `stem`). -/
def stemOf (node : String) : String :=
  String.mk (takeBeforeSep ['/'] node.data.reverse).reverse

/-! ## Node roles and the pending-update flag -/

/-- The three node roles of `Digraph.node_type`. -/
inductive NodeTp
  | src
  | tgt
  | hub
deriving DecidableEq

/-- `Digraph.node_type`: hub if both a source and a target, else target if
a target, else source. -/
def nodeTypeOf (srcs tgts : List String) (n : String) : NodeTp :=
  if n ∈ srcs ∧ n ∈ tgts then .hub
  else if n ∈ tgts then .tgt
  else .src

/-- `Digraph.is_update_pending`: a `src` node never pends an update;
otherwise the node pends an update iff its `plan` does not contain
`"no update"`.  The `nodes_raw` subscript is modelled with `Option`
(`none` = `KeyError`, unreachable for nodes of the graph). -/
def isUpdatePendingFn (el : List EdgePair) (srcs tgts : List String)
    (n : String) : Option Bool :=
  if nodeTypeOf srcs tgts n = .src then some false
  else (nodesRawFn el n).map fun d => !(strIn "no update" d.plan)

/-! ## Style helpers -/

/-- `get_node_styles(n)`: the three dashed style codes, repeated
`ceil(n/3)` times when `n` exceeds 3, truncated to length `n`. -/
def get_node_styles (n : Nat) : List String :=
  let codes := ["\"rounded,dashed\"", "\"boxed,dashed\"", "\"diagonals,dashed\""]
  let codes2 :=
    if n > codes.length then
      (List.replicate ((n + codes.length - 1) / codes.length) codes).flatten
    else codes
  codes2.take n

/-- The per-role style table of `_set_node_sty`:
`{ k:styles[i] for i, k in enumerate(["src","tgt","hub"]) }`. -/
def styleFor : NodeTp → String
  | .src => (get_node_styles 3).getD 0 ""
  | .tgt => (get_node_styles 3).getD 1 ""
  | .hub => (get_node_styles 3).getD 2 ""

/-- The style assigned to one node in `_set_node_sty`: the role style,
with `",dashed"` stripped whenever `is_update_pending` holds.  (The
`none` branch of the pending flag is unreachable for graph nodes; Python
would have raised `KeyError` before reaching the comparison.) -/
def nodeStyleFn (el : List EdgePair) (srcs tgts : List String) (n : String) : String :=
  let sty := styleFor (nodeTypeOf srcs tgts n)
  match isUpdatePendingFn el srcs tgts n with
  | some true => strReplace ",dashed" "" sty
  | _ => sty

/-! ## rainbow -/

/-- Round a rational to three decimal places, modelling Python's
`round(x, 3)` up to the tie-breaking rule: Mathlib's `round` rounds half
up, while Python rounds the binary float's exact value half to even (so
e.g. with 16 sources Python emits hue `0.062` where `round3 (1/16)`
is `0.063`).  Every theorem below therefore asserts of the hues only
facts that hold for any round-to-nearest — grid membership, the
half-grid-step error bound, exact values at grid points such as hue `0`
— or concrete values at inputs that are not ties for either rule (all
the concrete hues evaluated here are at least `4.9e-4` away from the
nearest tie, far beyond the `1e-16`-scale float error). -/
def round3 (q : ℚ) : ℚ := ((round (q * 1000) : ℤ) : ℚ) / 1000

/-- One color produced by `rainbow`: the components of the emitted string
`f"{round(i*step,3)} {S} {V} {alpha}"`.  Distinct component tuples render
to distinct strings, so color-string equality is tuple equality. -/
structure HsvColor where
  hue : ℚ
  sat : String
  bri : String
  alpha : Option ℚ
deriving DecidableEq

/-- The color list of `rainbow(n, alpha)` for `n > 0`. -/
def rainbowList (n : Nat) (alpha : Option ℚ) : List HsvColor :=
  (List.range n).map fun (i : Nat) =>
    { hue := round3 ((i : ℚ) / (n : ℚ)), sat := "1.000", bri := "0.900", alpha := alpha }

/-- `rainbow(n, alpha)`: `step = 1/n` raises `ZeroDivisionError` when
`n = 0` (modelled as `none`); otherwise the `n` equally spaced colors. -/
def rainbow (n : Nat) (alpha : Option ℚ) : Option (List HsvColor) :=
  if n = 0 then none else some (rainbowList n alpha)

/-! ## The Digraph structure -/

/-- The fields computed by `Digraph.__init__`. -/
structure Digraph where
  edge_list : List EdgePair
  edges : List (String × String)
  nodes : List String
  src_nodes : List String
  tgt_nodes : List String
  n_src : Nat
  n_tgt : Nat
  basedirs : List String
  n_basedir : Nat
  src_color : List (String × HsvColor)
  node_tp_style : List (String × String)

instance : Inhabited Digraph :=
  ⟨⟨[], [], [], [], [], 0, 0, [], 0, [], []⟩⟩

/-- `self.edge_list = []; for e in edge_list: ...` (dedup). -/
def edgeListOf (input : List EdgePair) : List EdgePair := dedupEdges input

/-- `self.edges = [ (s["node"], t["node"]) for s, t in self.edge_list ]`. -/
def edgesOf (input : List EdgePair) : List (String × String) :=
  (edgeListOf input).map keyPair

/-- `self.nodes = sorted(set(n for e in self.edges for n in e))`. -/
def nodesOf (input : List EdgePair) : List String :=
  sortedSetStr ((edgesOf input).flatMap fun e => [e.1, e.2])

/-- `self.src_nodes = sorted(set(s for s, t in self.edges))`. -/
def srcNodesOf (input : List EdgePair) : List String :=
  sortedSetStr ((edgesOf input).map Prod.fst)

/-- `self.tgt_nodes = sorted(set(t for s, t in self.edges))`. -/
def tgtNodesOf (input : List EdgePair) : List String :=
  sortedSetStr ((edgesOf input).map Prod.snd)

/-- `self.n_src = len(self.src_nodes)`. -/
def nSrcOf (input : List EdgePair) : Nat := (srcNodesOf input).length

/-- `self.basedirs = sorted(set(...basedir...))`. -/
def basedirsOf (input : List EdgePair) : List String :=
  sortedSetStr ((nodesOf input).map basedirOf)

/-- Assembling the `Digraph` fields once `rainbow` has returned `cs`:
`colors = rainbow(self.n_src, alpha=1)[::-1]` pairs the sorted source
nodes with the reversed color list, and `node_tp_style` assigns each node
its role style via `_set_node_sty`. -/
def mkDigraphCore (input : List EdgePair) (cs : List HsvColor) : Digraph :=
  { edge_list := edgeListOf input
    edges := edgesOf input
    nodes := nodesOf input
    src_nodes := srcNodesOf input
    tgt_nodes := tgtNodesOf input
    n_src := nSrcOf input
    n_tgt := (tgtNodesOf input).length
    basedirs := basedirsOf input
    n_basedir := (basedirsOf input).length
    src_color := (srcNodesOf input).zip cs.reverse
    node_tp_style := (nodesOf input).map fun n =>
      (n, nodeStyleFn (edgeListOf input) (srcNodesOf input) (tgtNodesOf input) n) }

/-- `Digraph(edge_list)`: `none` exactly when `_set_node_sty` raises
`ZeroDivisionError` inside `rainbow(self.n_src, alpha=1)`. -/
def mkDigraph (input : List EdgePair) : Option Digraph :=
  (rainbow (nSrcOf input) (some 1)).map (mkDigraphCore input)

/-- `Digraph.node_type` on a built graph. -/
def Digraph.node_type (g : Digraph) (n : String) : NodeTp :=
  nodeTypeOf g.src_nodes g.tgt_nodes n

/-- `Digraph.is_update_pending` on a built graph. -/
def Digraph.is_update_pending (g : Digraph) (n : String) : Option Bool :=
  isUpdatePendingFn g.edge_list g.src_nodes g.tgt_nodes n

/-- `self.nodes_raw[...]` lookups on a built graph. -/
def Digraph.nodes_raw (g : Digraph) (n : String) : Option NodeDesc :=
  nodesRawFn g.edge_list n

/-! ## The nodes_raw dict as data, and main's tooltip loop

Claim C5 is about mutation of the stored descriptors, so here the dict is
kept as data: an association list of (key, descriptor-dict) in Python's
insertion order, descriptor dicts themselves being ordered key/value
lists. -/

/-- A descriptor dict as ordered key/value pairs. -/
abbrev DescDict := List (String × String)

/-- The dict literal built by `parse_detailed_summary` (insertion order
`node, date, rule, version, status, plan`). -/
def NodeDesc.toDict (d : NodeDesc) : DescDict :=
  [("node", d.node), ("date", d.date), ("rule", d.rule),
   ("version", d.version), ("status", d.status), ("plan", d.plan)]

/-- Python `k in dict`. -/
def hasKey (k : String) (d : List (String × α)) : Bool :=
  d.any fun kv => kv.1 == k

/-- Python `dict[k] = v`: overwrite in place, else append (insertion
order preserved, overwrite keeps the original position). -/
def dictInsert (k : String) (v : α) (d : List (String × α)) : List (String × α) :=
  if hasKey k d then d.map fun kv => if kv.1 == k then (kv.1, v) else kv
  else d ++ [(k, v)]

/-- `self.nodes_raw` as a dict: the comprehension over targets followed by
the source fill-in loop. -/
def nodesRawDict (el : List EdgePair) : List (String × DescDict) :=
  let tgtD := el.foldl (fun d p => dictInsert p.2.node p.2.toDict d) []
  el.foldl (fun d p => if hasKey p.1.node d then d else d ++ [(p.1.node, p.1.toDict)]) tgtD

/-- Python `del d[k]` (keys are unique, so filtering is the deletion). -/
def delKey (k : String) (d : DescDict) : DescDict :=
  d.filter fun kv => !(kv.1 == k)

/-- The node loop of `main`:
`for node in Graph.nodes: node_info = Graph.nodes_raw[node]; del node_info['node']`
mutates each stored descriptor in place. -/
def tooltipLoop (nodes : List String) (d : List (String × DescDict)) :
    List (String × DescDict) :=
  nodes.foldl
    (fun d n => d.map fun kv => if kv.1 == n then (kv.1, delKey "node" kv.2) else kv) d

/-! ## add_svg_style -/

/-- The character set of `l.lstrip("<!-- ")`. -/
def lstripMarkerChars : List Char := ['<', '!', '-', ' ']

/-- The character set of `.rstrip(" -->")`. -/
def rstripMarkerChars : List Char := [' ', '-', '>']

/-- The `"&#45;&gt;"` arrow separator. -/
def arrowSep : List Char := ("&#45;&gt;").data

/-- `src_node` as computed for a comment line:
`l.lstrip("<!-- ").rstrip(" -->").split("&#45;&gt;")[0]` followed by
`.replace("/", "-").replace(".", "-")`. -/
def svgMarkerText (l : String) : String :=
  String.mk (replaceList ['.'] ['-'] (replaceList ['/'] ['-']
    (takeBeforeSep arrowSep (rstripSet rstripMarkerChars
      (lstripSet lstripMarkerChars l.data)))))

/-- The literal the regex `class="(edge|node)">` matches with `\1 = edge`. -/
def edgePat : List Char := ("class=\"edge\">").data

/-- The literal the regex matches with `\1 = node`. -/
def nodePat : List Char := ("class=\"node\">").data

/-- The substitution `r'class="\1 ' + src_node + '">'` for an edge match. -/
def edgeRepl (src : List Char) : List Char :=
  ("class=\"edge ").data ++ src ++ ("\">").data

/-- The substitution for a node match. -/
def nodeRepl (src : List Char) : List Char :=
  ("class=\"node ").data ++ src ++ ("\">").data

/-- `pat_g.sub(r'class="\1 ' + src_node + '">', line)`: leftmost,
non-overlapping global substitution scanning the original text, fuelled
for structural recursion (any `fuel ≥ l.length` computes it, since each
step consumes at least one character). -/
def classSubF (src : List Char) : Nat → List Char → List Char
  | _, [] => []
  | 0, l => l
  | fuel + 1, a :: rest =>
    if edgePat.isPrefixOf (a :: rest) then
      edgeRepl src ++ classSubF src fuel ((a :: rest).drop edgePat.length)
    else if nodePat.isPrefixOf (a :: rest) then
      nodeRepl src ++ classSubF src fuel ((a :: rest).drop nodePat.length)
    else a :: classSubF src fuel rest

/-- `pat_g.sub` on character lists. -/
def classSub (src : List Char) (l : List Char) : List Char :=
  classSubF src l.length l

/-- `pat_g.sub` on strings, for injected text without backslashes (where
the replacement template is the literal splice). -/
def classSubStr (src line : String) : String :=
  String.mk (classSub src.data line.data)

/-- The full replacement step
`pat_g.sub(r'class="\1 ' + src_node + '">', line)` including `re.sub`'s
treatment of the replacement template: the template is parsed for
backslash escapes, so when `src_node` contains a backslash the
substitution either raises `re.error` (`\d`, `\2`–`\99`, a trailing
backslash, ...) or splices translated text (`\n`, `\\`, ...) instead of
the literal characters.  The model is exact on backslash-free injected
text, where the template reduces to the literal splice `classSub`, and
maps every backslash-containing `src_node` to `none` — conservatively
covering both the raising and the escape-translating behaviours; no
theorem below treats that case as a successful run. -/
def classSubStr? (src line : String) : Option String :=
  if '\\' ∈ src.data then none else some (classSubStr src line)

/-- The marker loop of `add_svg_style`: `enumerate(file)` iterates over the
live list while `file[i+1] = pat_g.sub(...)` mutates it, so each step reads
the current state; a marker on the last line makes `file[i+1]` raise
`IndexError` (`none`), and the substitution itself goes through
`classSubStr?`, whose `none` covers `re.sub`'s backslash-template
behaviours.  Python's `src_nodes` is a `set`; it is modelled as a list
with membership-checked insertion (only the iteration order of the final
CSS rules depends on this choice, not their contents). -/
def annotLoopF : Nat → List String → List String → Nat →
    Option (List String × List String)
  | 0, file, srcs, _ => some (file, srcs)
  | fuel + 1, file, srcs, i =>
    if h : i < file.length then
      if startsWithStr "<!-- " (file.get ⟨i, h⟩) then
        let src := svgMarkerText (file.get ⟨i, h⟩)
        let srcs2 := if src ∈ srcs then srcs else srcs ++ [src]
        if h2 : i + 1 < file.length then
          match classSubStr? src (file.get ⟨i + 1, h2⟩) with
          | none => none
          | some line2 => annotLoopF fuel (file.set (i + 1) line2) srcs2 (i + 1)
        else none
      else annotLoopF fuel file srcs (i + 1)
    else some (file, srcs)

/-- The marker loop starting at index `i`: `file.length - i` iterations
remain, which is exactly the fuel handed to `annotLoopF` (list `set`
preserves length, so the fuel never runs out before `i` reaches the end). -/
def annotLoop (file : List String) (srcs : List String) (i : Nat) :
    Option (List String × List String) :=
  annotLoopF (file.length - i) file srcs i

/-- One hover rule `f".node.{node}:hover ~ .{node}" + "{stroke-width: 5;}\n"`. -/
def styleRuleFor (node : String) : String :=
  ".node." ++ node ++ ":hover ~ ." ++ node ++ "\x7bstroke-width: 5;\x7d\n"

/-- `add_svg_style` on the list of lines of the rendered SVG: run the
marker loop, then build the embedded stylesheet and splice it in place of
`</svg>`. -/
def addSvgStyle (file : List String) : Option String :=
  (annotLoop file [] 0).map fun r =>
    let style1 := r.2.foldl (fun acc node => acc ++ styleRuleFor node)
      "g.edge:hover * \x7bstroke-width: 5;\x7d\n"
    strReplace "</svg>" ("<style>" ++ style1 ++ "</style></svg>") (String.join r.1)

/-! ## Basic lemmas about the embedded primitives -/

theorem lexLeB_total : ∀ x y : List Char, lexLeB x y = true ∨ lexLeB y x = true
  | [], _ => by left; rfl
  | _ :: _, [] => by right; rfl
  | a :: as, b :: bs => by
    by_cases hab : a < b
    · left; simp [lexLeB, hab]
    · by_cases hba : b < a
      · right; simp [lexLeB, hba, hab]
      · have := lexLeB_total as bs
        simp [lexLeB, hab, hba]
        exact this

theorem lexLeB_trans : ∀ x y z : List Char,
    lexLeB x y = true → lexLeB y z = true → lexLeB x z = true
  | [], _, _, _, _ => rfl
  | _ :: _, [], _, h1, _ => by simp [lexLeB] at h1
  | _ :: _, _ :: _, [], _, h2 => by simp [lexLeB] at h2
  | a :: as, b :: bs, c :: cs, h1, h2 => by
    rcases lt_trichotomy a b with hab | hab | hab
    · rcases lt_trichotomy b c with hbc | hbc | hbc
      · rw [lexLeB, if_pos (lt_trans hab hbc)]
      · subst hbc
        rw [lexLeB, if_pos hab]
      · rw [lexLeB, if_neg (asymm hbc), if_pos hbc] at h2
        exact absurd h2 (by simp)
    · subst hab
      rw [lexLeB, if_neg (lt_irrefl a), if_neg (lt_irrefl a)] at h1
      rcases lt_trichotomy a c with hac | hac | hac
      · rw [lexLeB, if_pos hac]
      · subst hac
        rw [lexLeB, if_neg (lt_irrefl a), if_neg (lt_irrefl a)] at h2 ⊢
        exact lexLeB_trans as bs cs h1 h2
      · rw [lexLeB, if_neg (asymm hac), if_pos hac] at h2
        exact absurd h2 (by simp)
    · rw [lexLeB, if_neg (asymm hab), if_pos hab] at h1
      exact absurd h1 (by simp)

instance instIsTotalStrLe : IsTotal String strLe :=
  ⟨fun a b => lexLeB_total a.data b.data⟩

instance instIsTransStrLe : IsTrans String strLe :=
  ⟨fun a b c h1 h2 => lexLeB_trans a.data b.data c.data h1 h2⟩

theorem mem_sortedSetStr {a : String} {l : List String} :
    a ∈ sortedSetStr l ↔ a ∈ l := by
  rw [sortedSetStr, (List.perm_insertionSort strLe l.dedup).mem_iff]
  exact List.mem_dedup

theorem nodup_sortedSetStr (l : List String) : (sortedSetStr l).Nodup :=
  ((List.perm_insertionSort strLe l.dedup).nodup_iff).mpr (List.nodup_dedup l)

theorem sorted_sortedSetStr (l : List String) : (sortedSetStr l).Sorted strLe :=
  List.sorted_insertionSort strLe l.dedup

theorem sortedSetStr_eq_self {l : List String} (hn : l.Nodup)
    (hs : l.Sorted strLe) : sortedSetStr l = l := by
  rw [sortedSetStr, List.dedup_eq_self.mpr hn, hs.insertionSort_eq]

theorem length_sortedSetStr_of_nodup {l : List String} (hn : l.Nodup) :
    (sortedSetStr l).length = l.length := by
  rw [sortedSetStr, (List.perm_insertionSort strLe l.dedup).length_eq,
    List.dedup_eq_self.mpr hn]

theorem mem_dedupAppend [DecidableEq α] {x : α} :
    ∀ (l acc : List α), x ∈ dedupAppend acc l ↔ x ∈ acc ∨ x ∈ l
  | [], acc => by simp [dedupAppend]
  | e :: rest, acc => by
    rw [dedupAppend]
    by_cases he : e ∈ acc
    · rw [if_pos he, mem_dedupAppend rest acc]
      constructor
      · rintro (h | h)
        · exact Or.inl h
        · exact Or.inr (List.mem_cons_of_mem _ h)
      · rintro (h | h)
        · exact Or.inl h
        · rcases List.mem_cons.mp h with rfl | h
          · exact Or.inl he
          · exact Or.inr h
    · rw [if_neg he, mem_dedupAppend rest (acc ++ [e])]
      simp only [List.mem_append, List.mem_singleton, List.mem_cons]
      tauto

theorem nodup_dedupAppend [DecidableEq α] :
    ∀ (l acc : List α), acc.Nodup → (dedupAppend acc l).Nodup
  | [], acc, h => h
  | e :: rest, acc, h => by
    rw [dedupAppend]
    by_cases he : e ∈ acc
    · rw [if_pos he]
      exact nodup_dedupAppend rest acc h
    · rw [if_neg he]
      refine nodup_dedupAppend rest (acc ++ [e]) ?_
      simpa [List.nodup_append] using ⟨h, he⟩

theorem dedupAppend_append [DecidableEq α] :
    ∀ (l acc : List α), ∃ t, dedupAppend acc l = acc ++ t ∧ t.Sublist l
  | [], acc => ⟨[], by simp [dedupAppend]⟩
  | e :: rest, acc => by
    rw [dedupAppend]
    by_cases he : e ∈ acc
    · rw [if_pos he]
      obtain ⟨t, ht, hs⟩ := dedupAppend_append rest acc
      exact ⟨t, ht, hs.cons e⟩
    · rw [if_neg he]
      obtain ⟨t, ht, hs⟩ := dedupAppend_append rest (acc ++ [e])
      exact ⟨e :: t, by simpa using ht, hs.cons₂ e⟩

theorem dedupAppend_eq_append [DecidableEq α] :
    ∀ (l acc : List α), (∀ x ∈ l, x ∉ acc) → l.Nodup →
      dedupAppend acc l = acc ++ l
  | [], acc, _, _ => by simp [dedupAppend]
  | e :: rest, acc, hd, hn => by
    rw [dedupAppend, if_neg (hd e (List.mem_cons_self e rest))]
    rw [dedupAppend_eq_append rest (acc ++ [e]) ?_ (List.Nodup.of_cons hn)]
    · simp
    · intro x hx
      simp only [List.mem_append, List.mem_singleton]
      rintro (h | rfl)
      · exact hd x (List.mem_cons_of_mem _ hx) h
      · exact (List.nodup_cons.mp hn).1 hx

theorem mem_dedupEdges {x : EdgePair} {l : List EdgePair} :
    x ∈ dedupEdges l ↔ x ∈ l := by
  rw [dedupEdges, mem_dedupAppend]
  simp

theorem nodup_dedupEdges (l : List EdgePair) : (dedupEdges l).Nodup :=
  nodup_dedupAppend l [] List.nodup_nil

theorem dedupEdges_sublist (l : List EdgePair) : (dedupEdges l).Sublist l := by
  obtain ⟨t, ht, hs⟩ := dedupAppend_append l []
  rw [dedupEdges, ht]
  simpa using hs

theorem dedupEdges_eq_self {l : List EdgePair} (hn : l.Nodup) :
    dedupEdges l = l := by
  rw [dedupEdges, dedupAppend_eq_append l [] (by simp) hn]
  simp

theorem map_dedupAppend [DecidableEq α] [DecidableEq β] {f : α → β} :
    ∀ (l acc : List α),
      (∀ p q, (p ∈ acc ∨ p ∈ l) → (q ∈ acc ∨ q ∈ l) → f p = f q → p = q) →
      (dedupAppend acc l).map f = dedupAppend (acc.map f) (l.map f)
  | [], acc, _ => by simp [dedupAppend]
  | e :: rest, acc, hinj => by
    rw [dedupAppend, List.map_cons, dedupAppend]
    by_cases he : e ∈ acc
    · rw [if_pos he, if_pos (List.mem_map_of_mem f he)]
      exact map_dedupAppend rest acc (fun p q hp hq =>
        hinj p q (hp.imp id (List.mem_cons_of_mem e))
          (hq.imp id (List.mem_cons_of_mem e)))
    · have hfe : f e ∉ acc.map f := by
        intro hm
        obtain ⟨a, ha, hfa⟩ := List.mem_map.mp hm
        have : a = e := hinj a e (Or.inl ha) (Or.inr (List.mem_cons_self e rest)) hfa
        exact he (this ▸ ha)
      rw [if_neg he, if_neg hfe]
      have := map_dedupAppend rest (acc ++ [e]) (fun p q hp hq =>
        hinj p q
          (by
            rcases hp with hp | hp
            · rcases List.mem_append.mp hp with hp | hp
              · exact Or.inl hp
              · exact Or.inr (by simpa using Or.inl (List.mem_singleton.mp hp))
            · exact Or.inr (List.mem_cons_of_mem e hp))
          (by
            rcases hq with hq | hq
            · rcases List.mem_append.mp hq with hq | hq
              · exact Or.inl hq
              · exact Or.inr (by simpa using Or.inl (List.mem_singleton.mp hq))
            · exact Or.inr (List.mem_cons_of_mem e hq)))
      rw [this, List.map_append]
      rfl

theorem dedupAppend_eq_firstSeen [DecidableEq α] :
    ∀ (l acc : List α),
      dedupAppend acc l = acc ++ firstSeenDedup (l.filter (fun x => x ∉ acc))
  | [], acc => by simp [dedupAppend, firstSeenDedup]
  | e :: rest, acc => by
    rw [dedupAppend]
    by_cases he : e ∈ acc
    · rw [if_pos he, dedupAppend_eq_firstSeen rest acc, List.filter_cons,
        if_neg (by simpa using he)]
    · rw [if_neg he, dedupAppend_eq_firstSeen rest (acc ++ [e]), List.filter_cons,
        if_pos (by simpa using he), firstSeenDedup]
      rw [List.append_assoc, List.singleton_append]
      congr 2
      refine congrArg firstSeenDedup ?_
      rw [List.filter_filter]
      refine List.filter_congr ?_
      intro x _
      by_cases h1 : x ∈ acc <;> by_cases h2 : x = e <;>
        simp [h1, h2, List.mem_append]

theorem dedupEdges_map_keyPair {input : List EdgePair}
    (huniq : ∀ p ∈ input, ∀ q ∈ input, keyPair p = keyPair q → p = q) :
    (dedupEdges input).map keyPair = firstSeenDedup (input.map keyPair) := by
  rw [dedupEdges, map_dedupAppend input []
    (fun p q hp hq => huniq p (hp.resolve_left (List.not_mem_nil p))
      q (hq.resolve_left (List.not_mem_nil q)))]
  rw [List.map_nil, dedupAppend_eq_firstSeen, List.nil_append]
  congr 1
  rw [List.filter_eq_self]
  intro a _
  simp

theorem lookup_map_eq_some {f : String → α} {n : String} {v : α} :
    ∀ {l : List String}, List.lookup n (l.map fun m => (m, f m)) = some v →
      n ∈ l ∧ v = f n
  | [], h => by simp [List.lookup] at h
  | m :: rest, h => by
    by_cases he : n = m
    · subst he
      rw [List.map_cons, List.lookup_cons_self] at h
      exact ⟨List.mem_cons_self _ _, (Option.some_inj.mp h).symm⟩
    · rw [List.map_cons] at h
      have hb : (n == m) = false := beq_eq_false_iff_ne.mpr he
      simp only [List.lookup, hb] at h
      obtain ⟨h1, h2⟩ := lookup_map_eq_some h
      exact ⟨List.mem_cons_of_mem _ h1, h2⟩

theorem lookup_map_of_mem {f : String → α} {n : String} :
    ∀ {l : List String}, n ∈ l →
      List.lookup n (l.map fun m => (m, f m)) = some (f n)
  | [], h => absurd h (List.not_mem_nil n)
  | m :: rest, h => by
    by_cases he : n = m
    · subst he
      rw [List.map_cons, List.lookup_cons_self]
    · have hb : (n == m) = false := beq_eq_false_iff_ne.mpr he
      rw [List.map_cons]
      simp only [List.lookup, hb]
      exact lookup_map_of_mem (by
        rcases List.mem_cons.mp h with rfl | h1
        · exact absurd rfl he
        · exact h1)

theorem lookup_zip_get {vals : List α} :
    ∀ {keys : List String} {i : Nat}, keys.Nodup → (hk : i < keys.length) →
      i < vals.length →
      List.lookup (keys.get ⟨i, hk⟩) (keys.zip vals) = vals.get? i := by
  intro keys
  induction keys generalizing vals with
  | nil => intro i _ hk; simp at hk
  | cons k ks ih =>
    intro i hn hk hv
    match vals, hv with
    | v :: vs, hv2 =>
      match i with
      | 0 => simp [List.lookup]
      | i + 1 =>
        have hki : ks.get ⟨i, by simpa using hk⟩ ∈ ks :=
          List.get_mem ks _ _
        have hne : ks.get ⟨i, by simpa using hk⟩ ≠ k := by
          intro he
          exact (List.nodup_cons.mp hn).1 (he ▸ hki)
        have hb : (ks.get ⟨i, by simpa using hk⟩ == k) = false :=
          beq_eq_false_iff_ne.mpr hne
        have hgs : (k :: ks).get ⟨i + 1, hk⟩ = ks.get ⟨i, by simpa using hk⟩ := rfl
        rw [List.zip_cons_cons, hgs]
        simp only [List.lookup, hb]
        have := @ih vs i (List.Nodup.of_cons hn) (by simpa using hk)
          (by simpa using hv2)
        rw [this]
        rfl

/-! ## Characterizing a successfully built graph -/

theorem mkDigraph_some {input : List EdgePair} {g : Digraph}
    (h : mkDigraph input = some g) :
    nSrcOf input ≠ 0 ∧ g = mkDigraphCore input (rainbowList (nSrcOf input) (some 1)) := by
  by_cases h0 : nSrcOf input = 0
  · rw [mkDigraph, rainbow, if_pos h0] at h
    exact absurd h (by simp)
  · rw [mkDigraph, rainbow, if_neg h0] at h
    exact ⟨h0, (Option.some_inj.mp (by simpa using h)).symm⟩

theorem mkDigraph_eq_some (input : List EdgePair) (h0 : nSrcOf input ≠ 0) :
    mkDigraph input = some (mkDigraphCore input (rainbowList (nSrcOf input) (some 1))) := by
  rw [mkDigraph, rainbow, if_neg h0]
  rfl

theorem length_rainbowList (n : Nat) (alpha : Option ℚ) :
    (rainbowList n alpha).length = n := by
  rw [rainbowList, List.length_map, List.length_range]

/-! ## nodes_raw lookup lemmas -/

theorem nodesRawFn_target {el : List EdgePair} {n : String}
    (h : ∃ p ∈ el, p.2.node = n) :
    ∃ q ∈ el, q.2.node = n ∧ nodesRawFn el n = some q.2 := by
  have h2 : ∃ p ∈ el.reverse, (p.2.node == n) = true := by
    obtain ⟨p, hp, he⟩ := h
    exact ⟨p, List.mem_reverse.mpr hp, beq_iff_eq.mpr he⟩
  obtain ⟨q, hq⟩ := Option.isSome_iff_exists.mp (List.find?_isSome.mpr h2)
  have hpred : (q.2.node == n) = true := by
    have := List.find?_some hq
    simpa using this
  refine ⟨q, List.mem_reverse.mp (List.mem_of_find?_eq_some hq),
    beq_iff_eq.mp hpred, ?_⟩
  rw [nodesRawFn, hq]

theorem nodesRawFn_isSome {el : List EdgePair} {n : String}
    (h : ∃ p ∈ el, p.1.node = n ∨ p.2.node = n) :
    (nodesRawFn el n).isSome = true := by
  rw [nodesRawFn]
  cases hm : el.reverse.find? (fun p => p.2.node == n) with
  | some p => simp
  | none =>
    have hnt : ∀ p ∈ el, p.2.node ≠ n := by
      intro p hp
      have := List.find?_eq_none.mp hm p (List.mem_reverse.mpr hp)
      simpa using this
    have hs : ∃ p ∈ el, (p.1.node == n) = true := by
      obtain ⟨p, hp, hd⟩ := h
      rcases hd with hd | hd
      · exact ⟨p, hp, beq_iff_eq.mpr hd⟩
      · exact absurd hd (hnt p hp)
    obtain ⟨q, hq⟩ := Option.isSome_iff_exists.mp (List.find?_isSome.mpr hs)
    simp [hq]

theorem mem_nodesOf {input : List EdgePair} {n : String} :
    n ∈ nodesOf input ↔ ∃ p ∈ edgeListOf input, p.1.node = n ∨ p.2.node = n := by
  rw [nodesOf, mem_sortedSetStr]
  simp only [edgesOf, List.mem_flatMap, List.mem_map]
  constructor
  · rintro ⟨e, ⟨p, hp, rfl⟩, he⟩
    simp only [keyPair, List.mem_cons, List.not_mem_nil, or_false] at he
    rcases he with he | he
    · exact ⟨p, hp, Or.inl he.symm⟩
    · exact ⟨p, hp, Or.inr he.symm⟩
  · rintro ⟨p, hp, hd⟩
    rcases hd with hd | hd
    · exact ⟨keyPair p, ⟨p, hp, rfl⟩, by simp [keyPair, hd]⟩
    · exact ⟨keyPair p, ⟨p, hp, rfl⟩, by simp [keyPair, hd]⟩

/-! ## round3 lemmas -/

theorem abs_round3_sub (q : ℚ) : |round3 q - q| ≤ 1 / 2000 := by
  rw [round3]
  have h := abs_sub_round (q * 1000)
  rw [abs_sub_comm] at h
  have h2 : ((round (q * 1000) : ℤ) : ℚ) / 1000 - q =
      (((round (q * 1000) : ℤ) : ℚ) - q * 1000) / 1000 := by ring
  rw [h2, abs_div, abs_of_pos (show (0:ℚ) < 1000 by norm_num)]
  linarith

theorem round3_natCast_div_thousand (i : Nat) :
    round3 ((i : ℚ) / 1000) = (i : ℚ) / 1000 := by
  rw [round3]
  have h : (i : ℚ) / 1000 * 1000 = (i : ℚ) := by field_simp
  rw [h, round_natCast]
  push_cast
  ring

theorem round3_lt_round3 {n i j : Nat} (hn : n ≤ 1000) (hij : i < j)
    (hj : j < n) : round3 ((i : ℚ) / n) < round3 ((j : ℚ) / n) := by
  rcases Nat.lt_or_ge n 1000 with hn' | hn'
  · have hnpos : 0 < n := lt_of_le_of_lt (Nat.zero_le j) hj
    have hn0 : (0 : ℚ) < n := by exact_mod_cast hnpos
    have h1 := abs_le.mp (abs_round3_sub ((i : ℚ) / n))
    have h2 := abs_le.mp (abs_round3_sub ((j : ℚ) / n))
    have hji : (1 : ℚ) ≤ (j : ℚ) - (i : ℚ) := by
      have : (i : ℚ) + 1 ≤ j := by exact_mod_cast hij
      linarith
    have hsub : (j : ℚ) / n - (i : ℚ) / n = ((j : ℚ) - (i : ℚ)) / n := by ring
    have hd : (1 : ℚ) / n ≤ (j : ℚ) / n - (i : ℚ) / n := by
      rw [hsub]
      gcongr
    have hcast : (n : ℚ) < 1000 := by exact_mod_cast hn'
    have hns : (1 : ℚ) / 1000 < 1 / n := by
      apply one_div_lt_one_div_of_lt hn0 hcast
    linarith
  · have hn1000 : n = 1000 := le_antisymm hn hn'
    subst hn1000
    have hc : ((1000 : Nat) : ℚ) = (1000 : ℚ) := by norm_cast
    rw [hc, round3_natCast_div_thousand, round3_natCast_div_thousand]
    have hlt : (i : ℚ) < j := by exact_mod_cast hij
    linarith

/-! ## Field equations of the built graph -/

theorem core_edge_list (input : List EdgePair) (cs : List HsvColor) :
    (mkDigraphCore input cs).edge_list = edgeListOf input := rfl

theorem core_edges (input : List EdgePair) (cs : List HsvColor) :
    (mkDigraphCore input cs).edges = edgesOf input := rfl

theorem core_nodes (input : List EdgePair) (cs : List HsvColor) :
    (mkDigraphCore input cs).nodes = nodesOf input := rfl

theorem core_src_nodes (input : List EdgePair) (cs : List HsvColor) :
    (mkDigraphCore input cs).src_nodes = srcNodesOf input := rfl

theorem core_tgt_nodes (input : List EdgePair) (cs : List HsvColor) :
    (mkDigraphCore input cs).tgt_nodes = tgtNodesOf input := rfl

theorem core_n_src (input : List EdgePair) (cs : List HsvColor) :
    (mkDigraphCore input cs).n_src = nSrcOf input := rfl

theorem core_src_color (input : List EdgePair) (cs : List HsvColor) :
    (mkDigraphCore input cs).src_color = (srcNodesOf input).zip cs.reverse := rfl

theorem core_node_tp_style (input : List EdgePair) (cs : List HsvColor) :
    (mkDigraphCore input cs).node_tp_style = (nodesOf input).map fun n =>
      (n, nodeStyleFn (edgeListOf input) (srcNodesOf input) (tgtNodesOf input) n) := rfl

theorem rainbowList_get (n : Nat) (alpha : Option ℚ) (k : Nat)
    (h : k < (rainbowList n alpha).length) :
    (rainbowList n alpha).get ⟨k, h⟩ =
      { hue := round3 ((k : ℚ) / (n : ℚ)), sat := "1.000", bri := "0.900",
        alpha := alpha } := by
  rw [List.get_eq_getElem]
  simp [rainbowList]

/-- The color dict entry of the `i`-th sorted source node: the reversed
rainbow places hue `round3 ((n-1-i)/n)` there. -/
theorem src_color_lookup (input : List EdgePair) {i : Nat}
    (hi : i < (srcNodesOf input).length) :
    List.lookup ((srcNodesOf input).get ⟨i, hi⟩)
      ((srcNodesOf input).zip ((rainbowList (nSrcOf input) (some 1)).reverse)) =
      some { hue := round3 (((nSrcOf input - 1 - i : Nat) : ℚ) /
               ((nSrcOf input : Nat) : ℚ)),
             sat := "1.000", bri := "0.900", alpha := some 1 } := by
  have hlen : ((rainbowList (nSrcOf input) (some 1)).reverse).length = nSrcOf input := by
    rw [List.length_reverse, length_rainbowList]
  have hv : i < ((rainbowList (nSrcOf input) (some 1)).reverse).length := by
    rw [hlen]
    exact hi
  have hnd : (srcNodesOf input).Nodup := nodup_sortedSetStr _
  rw [lookup_zip_get hnd hi hv]
  rw [List.get?_eq_get hv, List.get_eq_getElem, List.getElem_reverse]
  have hb : (rainbowList (nSrcOf input) (some 1)).length - 1 - i <
      (rainbowList (nSrcOf input) (some 1)).length := by
    rw [length_rainbowList]
    omega
  rw [← List.get_eq_getElem _ ⟨_, hb⟩, rainbowList_get]
  rw [length_rainbowList]

/-! ## Concrete instances used by counterexamples and witnesses -/

/-- A target descriptor with full (non-blank) metadata. -/
def tgtDesc (node plan : String) : NodeDesc :=
  { node := node, date := "2024-01-01", rule := "r1", version := "1",
    status := "updated", plan := plan }

/-- One record: source `a`, target `b`, plan without the marker. -/
def c1Input : List EdgePair := [(srcDesc "a", tgtDesc "b" "rebuild")]

/-- Two records whose key pairs coincide but whose target metadata differs. -/
def c3Input : List EdgePair :=
  [(srcDesc "a", tgtDesc "b" "x"), (srcDesc "a", tgtDesc "b" "y")]

/-- Three records with a structurally repeated pair: key pairs
`[(a,b), (c,b), (a,b)]`. -/
def c3wInput : List EdgePair :=
  [(srcDesc "a", tgtDesc "b" "x"), (srcDesc "c", tgtDesc "b" "x"),
   (srcDesc "a", tgtDesc "b" "x")]

/-- Target carrying the `"no update"` marker. -/
def c4Input : List EdgePair := [(srcDesc "a", tgtDesc "b" "no update")]

/-- A two-record chain: `a -> b -> c`, `b` a hub with the marker. -/
def c8Input : List EdgePair :=
  [(srcDesc "a", tgtDesc "b" "planned: no update"), (srcDesc "b", tgtDesc "c" "rebuild")]

/-! ## Claim theorems -/

/-- Claim C2 (code_bug): the claim says an empty input must still build and
style an empty graph without crashing, but `Digraph.__init__` calls
`rainbow(0, alpha=1)`, whose `step = 1 / n` divides by zero, so the
construction raises `ZeroDivisionError` (modelled as `none`). -/
theorem c2_empty_input_raises :
    mkDigraph [] = none ∧ rainbow 0 (some 1) = none :=
  ⟨rfl, rfl⟩

/-- Claim C3 counterexample: with two structurally different descriptor
pairs sharing the key pair `("a","b")`, the built edge list repeats that
key pair, so `edges()` does not contain each (source key, target key)
pair exactly once. -/
theorem c3_counterexample :
    (mkDigraph c3Input).map (fun g => g.edges) = some [("a", "b"), ("a", "b")] ∧
    (mkDigraph c3Input).map (fun g => g.edges.count ("a", "b")) = some 2 := by
  constructor
  · decide
  · decide

/-- Claim C3 (amended): the dedup loop removes structurally equal
descriptor pairs, keeping first occurrences in order; consequently,
provided any two input pairs with the same key pair are structurally
equal (as when each target key carries a unique metadata record), the
key pair list `edges()` is exactly the first-occurrence deduplication of
the input key-pair sequence — each pair exactly once, in first-seen
order — and in particular a duplicate-free sublist of that sequence with
the same members. -/
theorem c3_amended {input : List EdgePair} {g : Digraph}
    (h : mkDigraph input = some g)
    (huniq : ∀ p ∈ input, ∀ q ∈ input, keyPair p = keyPair q → p = q) :
    g.edges = firstSeenDedup (input.map keyPair) ∧
    g.edges.Nodup ∧ g.edges.Sublist (input.map keyPair) ∧
      ∀ kp, kp ∈ g.edges ↔ kp ∈ input.map keyPair := by
  obtain ⟨hn0, rfl⟩ := mkDigraph_some h
  rw [core_edges, edgesOf, edgeListOf]
  refine ⟨dedupEdges_map_keyPair huniq, ?_, ?_, ?_⟩
  · refine List.Nodup.map_on ?_ (nodup_dedupEdges input)
    intro p hp q hq hkp
    exact huniq p (mem_dedupEdges.mp hp) q (mem_dedupEdges.mp hq) hkp
  · exact (dedupEdges_sublist input).map keyPair
  · intro kp
    simp only [List.mem_map]
    constructor
    · rintro ⟨p, hp, rfl⟩
      exact ⟨p, mem_dedupEdges.mp hp, rfl⟩
    · rintro ⟨p, hp, rfl⟩
      exact ⟨p, mem_dedupEdges.mpr hp, rfl⟩

/-- Claim C3 witness: at `c3wInput`, whose three pairs repeat the key
pair `("a","b")` with identical descriptors, the amended statement holds
with its hypotheses discharged concretely: `edges()` is the first-seen
dedup `[("a","b"), ("c","b")]`. -/
theorem c3_witness :
    ∃ g, mkDigraph c3wInput = some g ∧
      g.edges = firstSeenDedup (c3wInput.map keyPair) ∧
      g.edges.Nodup ∧ g.edges.Sublist (c3wInput.map keyPair) ∧
      g.edges = [("a", "b"), ("c", "b")] := by
  have hmk := mkDigraph_eq_some c3wInput (by decide)
  have h := c3_amended hmk (by decide)
  exact ⟨_, hmk, h.1, h.2.1, h.2.2.1, by decide⟩

/-- Claim C4: a node key that occurs as a target key receives the (unique)
target occurrence's descriptor in `nodes_raw`, never a blank source
descriptor: the target comprehension seeds the dict and the source loop
never overwrites an existing entry. -/
theorem c4_metadata_precedence {input : List EdgePair} {g : Digraph}
    {n : String} {p : EdgePair} (h : mkDigraph input = some g)
    (hp : p ∈ input) (hpt : p.2.node = n)
    (huniq : ∀ q ∈ input, q.2.node = n → q.2 = p.2) :
    g.nodes_raw n = some p.2 := by
  obtain ⟨hn0, rfl⟩ := mkDigraph_some h
  have hex : ∃ q ∈ edgeListOf input, q.2.node = n :=
    ⟨p, mem_dedupEdges.mpr hp, hpt⟩
  obtain ⟨q, hq, hqn, hfind⟩ := nodesRawFn_target hex
  have : nodesRawFn (edgeListOf input) n = some p.2 := by
    rw [hfind, huniq q (mem_dedupEdges.mp hq) hqn]
  exact this

/-- Claim C4 witness: concrete instance with a unique target record. -/
theorem c4_witness :
    ∃ g, mkDigraph c4Input = some g ∧
      g.nodes_raw "b" = some (tgtDesc "b" "no update") := by
  have hmk := mkDigraph_eq_some c4Input (by decide)
  refine ⟨_, hmk, ?_⟩
  exact @c4_metadata_precedence c4Input _ "b" (srcDesc "a", tgtDesc "b" "no update")
    hmk (by decide) rfl (by decide)

/-- Claim C1 counterexample: node `b` of `c1Input` has pending flag
`true` (its plan lacks the marker), yet its assigned style has had
`",dashed"` stripped — the code's polarity is the reverse of the claim's. -/
theorem c1_counterexample :
    (mkDigraph c1Input).map
        (fun g => (g.is_update_pending "b", g.node_tp_style.lookup "b")) =
      some (some true, some "\"boxed\"") ∧
    strIn ",dashed" "\"boxed\"" = false := by
  constructor
  · decide
  · decide

/-- Claim C1 (amended): `_set_node_sty` strips `",dashed"` from a node's
role style exactly when the node's pending flag is `true` (the node will
be rebuilt), and keeps the dashed role style when the flag is `false`. -/
theorem c1_amended {input : List EdgePair} {g : Digraph} {n : String}
    {sty : String} (h : mkDigraph input = some g)
    (hl : g.node_tp_style.lookup n = some sty) :
    (g.is_update_pending n = some true →
      sty = strReplace ",dashed" "" (styleFor (g.node_type n)) ∧
        strIn ",dashed" sty = false) ∧
    (g.is_update_pending n = some false →
      sty = styleFor (g.node_type n) ∧ strIn ",dashed" sty = true) := by
  obtain ⟨hn0, rfl⟩ := mkDigraph_some h
  rw [core_node_tp_style] at hl
  obtain ⟨hmem, rfl⟩ := lookup_map_eq_some hl
  constructor
  · intro hp
    have hp' : isUpdatePendingFn (edgeListOf input) (srcNodesOf input)
        (tgtNodesOf input) n = some true := hp
    have hsty : nodeStyleFn (edgeListOf input) (srcNodesOf input)
        (tgtNodesOf input) n =
        strReplace ",dashed" "" (styleFor (nodeTypeOf (srcNodesOf input)
          (tgtNodesOf input) n)) := by
      rw [nodeStyleFn, hp']
    refine ⟨hsty, ?_⟩
    rw [hsty]
    cases hnt : nodeTypeOf (srcNodesOf input) (tgtNodesOf input) n <;> decide
  · intro hp
    have hp' : isUpdatePendingFn (edgeListOf input) (srcNodesOf input)
        (tgtNodesOf input) n = some false := hp
    have hsty : nodeStyleFn (edgeListOf input) (srcNodesOf input)
        (tgtNodesOf input) n =
        styleFor (nodeTypeOf (srcNodesOf input) (tgtNodesOf input) n) := by
      rw [nodeStyleFn, hp']
    refine ⟨hsty, ?_⟩
    rw [hsty]
    cases hnt : nodeTypeOf (srcNodesOf input) (tgtNodesOf input) n <;> decide

/-- Claim C1 witness: instance of the amended claim at `c1Input`, node
`b` pending (style solid) and node `a` not pending (style dashed). -/
theorem c1_witness :
    ∃ g, mkDigraph c1Input = some g ∧
      g.node_tp_style.lookup "b" = some "\"boxed\"" ∧
      g.is_update_pending "b" = some true ∧
      "\"boxed\"" = strReplace ",dashed" "" (styleFor (g.node_type "b")) ∧
      strIn ",dashed" "\"boxed\"" = false := by
  have hmk := mkDigraph_eq_some c1Input (by decide)
  have hl : (mkDigraphCore c1Input (rainbowList (nSrcOf c1Input) (some 1))).node_tp_style.lookup "b" =
      some "\"boxed\"" := by decide
  have h := c1_amended hmk hl
  have hp : (mkDigraphCore c1Input (rainbowList (nSrcOf c1Input) (some 1))).is_update_pending "b" =
      some true := by decide
  exact ⟨_, hmk, hl, hp, (h.1 hp).1, (h.1 hp).2⟩

/-- Claim C8: a `src`-role node always reports pending `false`; a
`hub`/`tgt` node reports pending `false` exactly when its merged plan
contains `"no update"`. -/
theorem c8_pending_flag {input : List EdgePair} {g : Digraph} {n : String}
    (h : mkDigraph input = some g) (hn : n ∈ g.nodes) :
    (g.node_type n = .src → g.is_update_pending n = some false) ∧
    (g.node_type n ≠ .src →
      ∃ d, g.nodes_raw n = some d ∧
        (g.is_update_pending n = some false ↔ strIn "no update" d.plan = true)) := by
  obtain ⟨hn0, rfl⟩ := mkDigraph_some h
  have hn' : n ∈ nodesOf input := hn
  constructor
  · intro hsrc
    have hsrc' : nodeTypeOf (srcNodesOf input) (tgtNodesOf input) n = .src := hsrc
    have : isUpdatePendingFn (edgeListOf input) (srcNodesOf input)
        (tgtNodesOf input) n = some false := by
      rw [isUpdatePendingFn, if_pos hsrc']
    exact this
  · intro hnsrc
    have hnsrc' : ¬ (nodeTypeOf (srcNodesOf input) (tgtNodesOf input) n = .src) :=
      hnsrc
    have hsome : (nodesRawFn (edgeListOf input) n).isSome = true :=
      nodesRawFn_isSome (mem_nodesOf.mp hn')
    obtain ⟨d, hd⟩ := Option.isSome_iff_exists.mp hsome
    refine ⟨d, hd, ?_⟩
    have : isUpdatePendingFn (edgeListOf input) (srcNodesOf input)
        (tgtNodesOf input) n = some (!(strIn "no update" d.plan)) := by
      rw [isUpdatePendingFn, if_neg hnsrc', hd]
      rfl
    rw [show (mkDigraphCore input (rainbowList (nSrcOf input) (some 1))).is_update_pending n =
      isUpdatePendingFn (edgeListOf input) (srcNodesOf input) (tgtNodesOf input) n from rfl]
    rw [this]
    cases hsp : strIn "no update" d.plan <;> simp

/-- Claim C8 witness: in `c8Input`, `b` is a hub whose plan contains the
marker (pending `false`) and `a` is a pure source (pending `false`). -/
theorem c8_witness :
    ∃ g, mkDigraph c8Input = some g ∧ "b" ∈ g.nodes ∧
      g.node_type "b" ≠ .src ∧
      ∃ d, g.nodes_raw "b" = some d ∧
        (g.is_update_pending "b" = some false ↔ strIn "no update" d.plan = true) := by
  have hmk := mkDigraph_eq_some c8Input (by decide)
  have h := c8_pending_flag hmk (show "b" ∈ _ by decide)
  exact ⟨_, hmk, by decide, by decide, h.2 (by decide)⟩

/-! ## Lemmas for the tooltip loop (claim C5) -/

theorem delKey_delKey (v : DescDict) :
    delKey "node" (delKey "node" v) = delKey "node" v := by
  simp only [delKey, List.filter_filter]
  congr 1
  funext kv
  cases h : kv.1 == "node" <;> simp [h]

theorem lookup_map_update (n k : String) (f : DescDict → DescDict) :
    ∀ d : List (String × DescDict),
      List.lookup k (d.map fun kv => if kv.1 == n then (kv.1, f kv.2) else kv) =
        if k = n then (List.lookup k d).map f else List.lookup k d
  | [] => by
    cases hkn : decide (k = n) <;> simp [List.lookup]
  | (k', v) :: rest => by
    rw [List.map_cons]
    by_cases h1 : k' = n
    · subst h1
      rw [if_pos (show (k' == k') = true by simp)]
      by_cases h2 : k = k'
      · subst h2
        simp [List.lookup]
      · have hb : (k == k') = false := beq_eq_false_iff_ne.mpr h2
        simp only [List.lookup, hb]
        rw [lookup_map_update k' k f rest]
    · have hbn : (k' == n) = false := beq_eq_false_iff_ne.mpr h1
      rw [if_neg (show ¬ ((k' == n) = true) by simp [hbn])]
      by_cases h2 : k = k'
      · subst h2
        have hb : (k == k) = true := by simp
        simp only [List.lookup, hb]
        rw [if_neg h1]
      · have hb : (k == k') = false := beq_eq_false_iff_ne.mpr h2
        simp only [List.lookup, hb]
        exact lookup_map_update n k f rest

theorem lookup_tooltipLoop (k : String) :
    ∀ (ns : List String) (d : List (String × DescDict)),
      List.lookup k (tooltipLoop ns d) =
        if k ∈ ns then (List.lookup k d).map (delKey "node")
        else List.lookup k d
  | [], d => by simp [tooltipLoop]
  | n :: ns, d => by
    have hstep : tooltipLoop (n :: ns) d =
        tooltipLoop ns (d.map fun kv =>
          if kv.1 == n then (kv.1, delKey "node" kv.2) else kv) := rfl
    rw [hstep, lookup_tooltipLoop k ns _, lookup_map_update n k (delKey "node") d]
    by_cases hkn : k = n
    · subst hkn
      by_cases hm : k ∈ ns
      · rw [if_pos hm, if_pos rfl, if_pos (List.mem_cons_self k ns)]
        cases List.lookup k d <;> simp [delKey_delKey]
      · rw [if_neg hm, if_pos rfl, if_pos (List.mem_cons_self k ns)]
    · by_cases hm : k ∈ ns
      · rw [if_pos hm, if_neg hkn, if_pos (List.mem_cons_of_mem n hm)]
      · rw [if_neg hm, if_neg hkn,
          if_neg (fun hc => (List.mem_cons.mp hc).elim hkn hm)]

/-- Claim C5 counterexample: `main`'s tooltip loop
(`del node_info['node']`) changes the stored `nodes_raw` dict of the
graph built from `c1Input`, so the model is not immutable after build. -/
theorem c5_counterexample :
    ∃ g, mkDigraph c1Input = some g ∧
      tooltipLoop g.nodes (nodesRawDict g.edge_list) ≠ nodesRawDict g.edge_list := by
  refine ⟨_, mkDigraph_eq_some c1Input (by decide), ?_⟩
  decide

/-- Claim C5 (amended): after the build, the only mutation performed by
the pipeline is `main`'s tooltip preparation, which deletes exactly the
`node` key from each stored descriptor; every stored descriptor after the
loop is the built descriptor with its `node` entry removed, and the edge
list is untouched. -/
theorem c5_amended {input : List EdgePair} {g : Digraph}
    (h : mkDigraph input = some g) {k : String} (hk : k ∈ g.nodes) :
    List.lookup k (tooltipLoop g.nodes (nodesRawDict g.edge_list)) =
      (List.lookup k (nodesRawDict g.edge_list)).map (delKey "node") := by
  obtain ⟨hn0, rfl⟩ := mkDigraph_some h
  have hk' : k ∈ nodesOf input := hk
  have := lookup_tooltipLoop k (nodesOf input) (nodesRawDict (edgeListOf input))
  rw [if_pos hk'] at this
  exact this

/-- Claim C5 witness: the amended statement at `c1Input`, node `b`. -/
theorem c5_witness :
    ∃ g, mkDigraph c1Input = some g ∧ "b" ∈ g.nodes ∧
      List.lookup "b" (tooltipLoop g.nodes (nodesRawDict g.edge_list)) =
        (List.lookup "b" (nodesRawDict g.edge_list)).map (delKey "node") := by
  have hmk := mkDigraph_eq_some c1Input (by decide)
  exact ⟨_, hmk, by decide, c5_amended hmk (by decide)⟩

/-! ## Concrete hue computations -/

theorem round3_zero : round3 0 = 0 := by
  rw [round3]
  norm_num

theorem round3_two_thirds : round3 ((2 : ℚ) / 3) = 667 / 1000 := by
  rw [round3, round_eq]
  have h : (2 : ℚ) / 3 * 1000 + 1 / 2 = 4003 / 6 := by norm_num
  rw [h]
  have hf : ⌊(4003 : ℚ) / 6⌋ = 667 := by
    rw [Int.floor_eq_iff]
    constructor <;> norm_num
  rw [hf]
  norm_num

/-- A three-source graph: sources `a`, `b`, `c`, one common target. -/
def c7Input : List EdgePair :=
  [(srcDesc "a", tgtDesc "t" "p"), (srcDesc "b", tgtDesc "t" "p"),
   (srcDesc "c", tgtDesc "t" "p")]

/-- Claim C7 counterexample: the hue actually assigned to source `a`
(first of three sorted sources) is `round(2/3, 3) = 0.667`, not the exact
`i/n = 2/3` the claim states.  (`2000/3` is not a rounding tie, so
Python's half-to-even float rounding also yields `0.667` here.) -/
theorem c7_counterexample :
    ∃ g c, mkDigraph c7Input = some g ∧ "a" ∈ g.src_nodes ∧
      List.lookup "a" g.src_color = some c ∧
      c.hue = 667 / 1000 ∧ ((667 : ℚ) / 1000) ≠ 2 / 3 := by
  have hmk := mkDigraph_eq_some c7Input (by decide)
  have hs : List.lookup "a"
      ((srcNodesOf c7Input).zip ((rainbowList (nSrcOf c7Input) (some 1)).reverse)) =
      some { hue := round3 (((2 : Nat) : ℚ) / ((3 : Nat) : ℚ)),
             sat := "1.000", bri := "0.900", alpha := some 1 } :=
    @src_color_lookup c7Input 0 (by decide)
  refine ⟨_, _, hmk, by decide, hs, ?_, by norm_num⟩
  show round3 (((2 : Nat) : ℚ) / ((3 : Nat) : ℚ)) = 667 / 1000
  have hc : ((2 : Nat) : ℚ) / ((3 : Nat) : ℚ) = (2 : ℚ) / 3 := by norm_num
  rw [hc, round3_two_thirds]

/-- Claim C7 (amended): the `i`-th sorted source node receives
saturation `1.000`, brightness `0.900`, alpha `1`, and a hue on the
three-decimal grid within half a grid step (`1/2000`) of the exact
reverse-order spacing `(n-1-i)/n` — i.e. `(n-1-i)/n` rounded to three
decimals, stated independently of the tie-breaking rule so that it holds
for Python's half-to-even rounding of the float value as well.  The
allocation is in reverse sorted order, and the lexicographically last
source receives hue `0` exactly (0 is a grid point, unaffected by
tie-breaking). -/
theorem c7_amended {input : List EdgePair} {g : Digraph}
    (h : mkDigraph input = some g) :
    (∀ i (hi : i < g.src_nodes.length),
      ∃ c, List.lookup (g.src_nodes.get ⟨i, hi⟩) g.src_color = some c ∧
        c.sat = "1.000" ∧ c.bri = "0.900" ∧ c.alpha = some 1 ∧
        (∃ k : ℤ, c.hue = (k : ℚ) / 1000) ∧
        |c.hue - ((g.src_nodes.length - 1 - i : Nat) : ℚ) /
          ((g.src_nodes.length : Nat) : ℚ)| ≤ 1 / 2000) ∧
    (∀ hne : g.src_nodes ≠ [],
      List.lookup (g.src_nodes.getLast hne) g.src_color =
        some { hue := 0, sat := "1.000", bri := "0.900", alpha := some 1 }) ∧
    g.src_nodes.Sorted strLe := by
  obtain ⟨hn0, rfl⟩ := mkDigraph_some h
  refine ⟨?_, ?_, sorted_sortedSetStr _⟩
  · intro i hi
    refine ⟨_, src_color_lookup input hi, rfl, rfl, rfl, ⟨_, rfl⟩, ?_⟩
    exact abs_round3_sub _
  · intro hne
    have hne' : srcNodesOf input ≠ [] := hne
    have hlen : 0 < (srcNodesOf input).length := List.length_pos.mpr hne'
    have hlast : (srcNodesOf input).getLast hne' =
        (srcNodesOf input).get ⟨(srcNodesOf input).length - 1, by omega⟩ :=
      List.getLast_eq_get _ hne'
    have hs := src_color_lookup input (show (srcNodesOf input).length - 1 <
      (srcNodesOf input).length by omega)
    rw [← hlast] at hs
    have hz : nSrcOf input - 1 - ((srcNodesOf input).length - 1) = 0 := by
      show (srcNodesOf input).length - 1 - ((srcNodesOf input).length - 1) = 0
      omega
    rw [hz] at hs
    show List.lookup ((srcNodesOf input).getLast hne')
        ((srcNodesOf input).zip ((rainbowList (nSrcOf input) (some 1)).reverse)) =
      some { hue := 0, sat := "1.000", bri := "0.900", alpha := some 1 }
    rw [hs]
    have h0 : (((0 : Nat) : ℚ) / ((nSrcOf input : Nat) : ℚ)) = 0 := by norm_num
    rw [h0, round3_zero]

/-- Claim C7 witness: the amended statement at `c7Input`, position 0
(hue within `1/2000` of `2/3` on the grid) and at the last source
(hue `0`). -/
theorem c7_witness :
    ∃ g, mkDigraph c7Input = some g ∧
      (∃ hi : 0 < g.src_nodes.length, ∃ c,
        List.lookup (g.src_nodes.get ⟨0, hi⟩) g.src_color = some c ∧
        c.sat = "1.000" ∧ (∃ k : ℤ, c.hue = (k : ℚ) / 1000) ∧
        |c.hue - ((g.src_nodes.length - 1 - 0 : Nat) : ℚ) /
          ((g.src_nodes.length : Nat) : ℚ)| ≤ 1 / 2000) ∧
      ∃ hne : g.src_nodes ≠ [],
        List.lookup (g.src_nodes.getLast hne) g.src_color =
          some { hue := 0, sat := "1.000", bri := "0.900", alpha := some 1 } := by
  have hmk := mkDigraph_eq_some c7Input (by decide)
  obtain ⟨h1, h2, h3⟩ := c7_amended hmk
  obtain ⟨c, hc1, hc2, hc3, hc4, hc5, hc6⟩ := h1 0 (by decide)
  exact ⟨_, hmk, ⟨by decide, c, hc1, hc2, hc5, hc6⟩, by decide, h2 (by decide)⟩

/-! ## Claim C6: hue distinctness -/

/-- Claim C6 (amended): when the number of source nodes is between 2 and
1000, distinct source nodes always receive distinct hues (consecutive
exact hues are at least `1/1000` apart, which survives rounding to three
decimals). -/
theorem c6_amended {input : List EdgePair} {g : Digraph}
    (h : mkDigraph input = some g) (hn2 : 2 ≤ g.n_src)
    (hn1000 : g.n_src ≤ 1000) :
    ∀ a b, a ∈ g.src_nodes → b ∈ g.src_nodes → a ≠ b →
      ∀ ca cb, List.lookup a g.src_color = some ca →
        List.lookup b g.src_color = some cb → ca.hue ≠ cb.hue := by
  obtain ⟨hn0, rfl⟩ := mkDigraph_some h
  intro a b ha hb hab ca cb hca hcb
  obtain ⟨⟨i, hi⟩, rfl⟩ := List.mem_iff_get.mp ha
  obtain ⟨⟨j, hj⟩, rfl⟩ := List.mem_iff_get.mp hb
  have hij : i ≠ j := fun he => hab (by subst he; rfl)
  have hci := src_color_lookup input hi
  have hcj := src_color_lookup input hj
  have hca' := Option.some_inj.mp (hca.symm.trans hci)
  have hcb' := Option.some_inj.mp (hcb.symm.trans hcj)
  subst hca'
  subst hcb'
  show round3 (((nSrcOf input - 1 - i : Nat) : ℚ) / ((nSrcOf input : Nat) : ℚ)) ≠
    round3 (((nSrcOf input - 1 - j : Nat) : ℚ) / ((nSrcOf input : Nat) : ℚ))
  have hn : nSrcOf input = (srcNodesOf input).length := rfl
  have hi' : i < (srcNodesOf input).length := hi
  have hj' : j < (srcNodesOf input).length := hj
  have hn1000' : nSrcOf input ≤ 1000 := hn1000
  rcases Nat.lt_or_ge (nSrcOf input - 1 - i) (nSrcOf input - 1 - j) with hlt | hge
  · exact ne_of_lt (round3_lt_round3 hn1000' hlt (by omega))
  · have hlt2 : nSrcOf input - 1 - j < nSrcOf input - 1 - i := by omega
    exact (ne_of_lt (round3_lt_round3 hn1000' hlt2 (by omega))).symm

/-- A two-source graph for the C6 witness. -/
def c6wInput : List EdgePair :=
  [(srcDesc "a", tgtDesc "t" "p"), (srcDesc "b", tgtDesc "t" "p")]

/-- Claim C6 witness: at the two-source graph `c6wInput` the amended
statement applies and the two hues differ. -/
theorem c6_witness :
    ∃ g ca cb, mkDigraph c6wInput = some g ∧ 2 ≤ g.n_src ∧ g.n_src ≤ 1000 ∧
      "a" ∈ g.src_nodes ∧ "b" ∈ g.src_nodes ∧
      List.lookup "a" g.src_color = some ca ∧
      List.lookup "b" g.src_color = some cb ∧ ca.hue ≠ cb.hue := by
  have hmk := mkDigraph_eq_some c6wInput (by decide)
  have h1 : List.lookup "a"
      ((srcNodesOf c6wInput).zip ((rainbowList (nSrcOf c6wInput) (some 1)).reverse)) =
      some { hue := round3 (((1 : Nat) : ℚ) / ((2 : Nat) : ℚ)),
             sat := "1.000", bri := "0.900", alpha := some 1 } :=
    @src_color_lookup c6wInput 0 (by decide)
  have h2 : List.lookup "b"
      ((srcNodesOf c6wInput).zip ((rainbowList (nSrcOf c6wInput) (some 1)).reverse)) =
      some { hue := round3 (((0 : Nat) : ℚ) / ((2 : Nat) : ℚ)),
             sat := "1.000", bri := "0.900", alpha := some 1 } :=
    @src_color_lookup c6wInput 1 (by decide)
  refine ⟨_, _, _, hmk, by decide, by decide, by decide, by decide, h1, h2, ?_⟩
  exact c6_amended hmk (by decide) (by decide) "a" "b" (by decide) (by decide)
    (by decide) _ _ h1 h2

/-! ## Claim C6 counterexample: 1001 sources force a hue collision

With 1001 source nodes the exact hues `i/1001` are closer together than
the three-decimal rounding grid, and `round(500/1001, 3)` and
`round(501/1001, 3)` are both `0.5`.  The 1001 distinct source keys are
`""`, `"a"`, `"aa"`, ... (the graph is handled symbolically; nothing
forces the kernel to evaluate it). -/

/-- The `i`-th source key: `i` repetitions of `a`. -/
def bigName (i : Nat) : String := String.mk (List.replicate i 'a')

/-- 1001 records with pairwise distinct sources and a common target. -/
def c6Input : List EdgePair :=
  (List.range 1001).map fun i => (srcDesc (bigName i), tgtDesc "z" "p")

theorem bigName_injective : Function.Injective bigName := by
  intro i j h
  have hd : List.replicate i 'a' = List.replicate j 'a' := congrArg String.data h
  have hl := congrArg List.length hd
  simpa using hl

theorem c6Input_nodup : c6Input.Nodup := by
  rw [c6Input]
  refine List.Nodup.map ?_ (List.nodup_range 1001)
  intro i j h
  have h1 : srcDesc (bigName i) = srcDesc (bigName j) := congrArg Prod.fst h
  have h2 : bigName i = bigName j := congrArg NodeDesc.node h1
  exact bigName_injective h2

theorem c6_edgeList : edgeListOf c6Input = c6Input := by
  rw [edgeListOf]
  exact dedupEdges_eq_self c6Input_nodup

theorem c6_srcKeys :
    (edgesOf c6Input).map Prod.fst = (List.range 1001).map bigName := by
  rw [edgesOf, c6_edgeList, c6Input, List.map_map, List.map_map]
  rfl

theorem c6_n_src : nSrcOf c6Input = 1001 := by
  have hnd : ((List.range 1001).map bigName).Nodup :=
    (List.nodup_range 1001).map bigName_injective
  show (srcNodesOf c6Input).length = 1001
  rw [srcNodesOf, c6_srcKeys, length_sortedSetStr_of_nodup hnd,
    List.length_map, List.length_range]

theorem round3_501_1001 : round3 (((501 : Nat) : ℚ) / ((1001 : Nat) : ℚ)) = 1 / 2 := by
  have hc : ((501 : Nat) : ℚ) / ((1001 : Nat) : ℚ) = (501 : ℚ) / 1001 := by
    norm_num
  rw [hc, round3, round_eq]
  have h : (501 : ℚ) / 1001 * 1000 + 1 / 2 = 1003001 / 2002 := by norm_num
  rw [h]
  have hf : ⌊(1003001 : ℚ) / 2002⌋ = 500 := by
    rw [Int.floor_eq_iff]
    constructor <;> norm_num
  rw [hf]
  norm_num

theorem round3_500_1001 : round3 (((500 : Nat) : ℚ) / ((1001 : Nat) : ℚ)) = 1 / 2 := by
  have hc : ((500 : Nat) : ℚ) / ((1001 : Nat) : ℚ) = (500 : ℚ) / 1001 := by
    norm_num
  rw [hc, round3, round_eq]
  have h : (500 : ℚ) / 1001 * 1000 + 1 / 2 = 1001001 / 2002 := by norm_num
  rw [h]
  have hf : ⌊(1001001 : ℚ) / 2002⌋ = 500 := by
    rw [Int.floor_eq_iff]
    constructor <;> norm_num
  rw [hf]
  norm_num

set_option maxRecDepth 8192 in
/-- Claim C6 counterexample: the graph built from `c6Input` has 1001
source nodes, and the sources at sorted positions 499 and 500 are
distinct nodes assigned the same hue `0.5`. -/
theorem c6_counterexample :
    ∃ g a b ca cb, mkDigraph c6Input = some g ∧ g.n_src = 1001 ∧
      a ∈ g.src_nodes ∧ b ∈ g.src_nodes ∧ a ≠ b ∧
      List.lookup a g.src_color = some ca ∧
      List.lookup b g.src_color = some cb ∧ ca.hue = cb.hue := by
  have hmk := mkDigraph_eq_some c6Input (by rw [c6_n_src]; omega)
  have hlen : (srcNodesOf c6Input).length = 1001 := c6_n_src
  have h499 : 499 < (srcNodesOf c6Input).length := by omega
  have h500 : 500 < (srcNodesOf c6Input).length := by omega
  have hca := src_color_lookup c6Input h499
  have hcb := src_color_lookup c6Input h500
  have hne : (srcNodesOf c6Input).get ⟨499, h499⟩ ≠
      (srcNodesOf c6Input).get ⟨500, h500⟩ := by
    intro he
    have hnd : (srcNodesOf c6Input).Nodup := nodup_sortedSetStr _
    have hinj := List.nodup_iff_injective_get.mp hnd
    have h2 := hinj he
    simp at h2
  refine ⟨mkDigraphCore c6Input (rainbowList (nSrcOf c6Input) (some 1)),
    (srcNodesOf c6Input).get ⟨499, h499⟩, (srcNodesOf c6Input).get ⟨500, h500⟩,
    { hue := round3 (((nSrcOf c6Input - 1 - 499 : Nat) : ℚ) /
        ((nSrcOf c6Input : Nat) : ℚ)),
      sat := "1.000", bri := "0.900", alpha := some 1 },
    { hue := round3 (((nSrcOf c6Input - 1 - 500 : Nat) : ℚ) /
        ((nSrcOf c6Input : Nat) : ℚ)),
      sat := "1.000", bri := "0.900", alpha := some 1 },
    hmk, ?_, ?_, ?_, hne, ?_, ?_, ?_⟩
  · rw [core_n_src]
    exact c6_n_src
  · rw [core_src_nodes]
    exact List.get_mem _ _ _
  · rw [core_src_nodes]
    exact List.get_mem _ _ _
  · rw [core_src_color]
    exact hca
  · rw [core_src_color]
    exact hcb
  · show round3 (((nSrcOf c6Input - 1 - 499 : Nat) : ℚ) /
        ((nSrcOf c6Input : Nat) : ℚ)) =
      round3 (((nSrcOf c6Input - 1 - 500 : Nat) : ℚ) / ((nSrcOf c6Input : Nat) : ℚ))
    rw [c6_n_src]
    have h1 : (1001 - 1 - 499 : Nat) = 501 := by norm_num
    have h2 : (1001 - 1 - 500 : Nat) = 500 := by norm_num
    rw [h1, h2, round3_501_1001, round3_500_1001]

/-! ## Claims C9 and C10: the marker loop of add_svg_style -/

/-- The two-line document with a node-only marker. -/
def c10Doc : List String :=
  ["<!-- b/y -->\n", "<g id=\"node1\" class=\"node\">\n"]

/-- `classSubF` never creates a prefix avoiding the letter `c`: both
substitution strings start with `c`, so any marker prefix of the output
was already a prefix of the input line. -/
theorem classSubF_no_new_marker :
    ∀ (fuel : Nat) (pat : List Char), 'c' ∉ pat → ∀ (src l : List Char),
      pat.isPrefixOf (classSubF src fuel l) = true → pat.isPrefixOf l = true
  | 0, pat, _, src, l, h => by
    cases l with
    | nil => exact h
    | cons a rest => exact h
  | fuel + 1, pat, hc, src, l, h => by
    match l with
    | [] => exact h
    | a :: rest =>
      rw [classSubF] at h
      by_cases he : edgePat.isPrefixOf (a :: rest) = true
      · rw [if_pos he] at h
        match pat, hc with
        | [], _ => rfl
        | p :: ps, hc =>
          exfalso
          have hrepl : edgeRepl src ++ classSubF src fuel ((a :: rest).drop edgePat.length) =
              'c' :: (("lass=\"edge ").data ++ src ++ ("\">").data ++
                classSubF src fuel ((a :: rest).drop edgePat.length)) := by
            rw [edgeRepl]
            rfl
          rw [hrepl] at h
          simp only [List.isPrefixOf, Bool.and_eq_true, beq_iff_eq] at h
          exact hc (h.1 ▸ List.mem_cons_self p ps)
      · rw [if_neg he] at h
        by_cases hn : nodePat.isPrefixOf (a :: rest) = true
        · rw [if_pos hn] at h
          match pat, hc with
          | [], _ => rfl
          | p :: ps, hc =>
            exfalso
            have hrepl : nodeRepl src ++ classSubF src fuel ((a :: rest).drop nodePat.length) =
                'c' :: (("lass=\"node ").data ++ src ++ ("\">").data ++
                  classSubF src fuel ((a :: rest).drop nodePat.length)) := by
              rw [nodeRepl]
              rfl
            rw [hrepl] at h
            simp only [List.isPrefixOf, Bool.and_eq_true, beq_iff_eq] at h
            exact hc (h.1 ▸ List.mem_cons_self p ps)
        · rw [if_neg hn] at h
          match pat, hc with
          | [], _ => rfl
          | p :: ps, hc =>
            simp only [List.isPrefixOf, Bool.and_eq_true, beq_iff_eq] at h ⊢
            refine ⟨h.1, ?_⟩
            exact classSubF_no_new_marker fuel ps
              (fun hmem => hc (List.mem_cons_of_mem _ hmem)) src rest h.2

/-- Lifting to strings: `pat_g.sub` cannot make a line start with
`"<!-- "` if it did not already. -/
theorem marker_classSubStr {src l : String}
    (h : startsWithStr "<!-- " (classSubStr src l) = true) :
    startsWithStr "<!-- " l = true := by
  rw [startsWithStr] at h ⊢
  have h' : ("<!-- ").data.isPrefixOf (classSubF src.data l.data.length l.data) = true := h
  exact classSubF_no_new_marker l.data.length ("<!-- ").data (by decide) src.data l.data h'

/-- Characters surviving `lstrip` come from the input. -/
theorem mem_lstripSet {c : Char} {chars : List Char} :
    ∀ {l : List Char}, c ∈ lstripSet chars l → c ∈ l
  | [], h => h
  | a :: rest, h => by
    rw [lstripSet] at h
    by_cases ha : a ∈ chars
    · rw [if_pos ha] at h
      exact List.mem_cons_of_mem _ (mem_lstripSet h)
    · rw [if_neg ha] at h
      exact h

/-- Characters surviving `rstrip` come from the input. -/
theorem mem_rstripSet {c : Char} {chars l : List Char}
    (h : c ∈ rstripSet chars l) : c ∈ l := by
  rw [rstripSet] at h
  exact List.mem_reverse.mp (mem_lstripSet (List.mem_reverse.mp h))

/-- Characters of `split(sep)[0]` come from the input. -/
theorem mem_takeBeforeSep {c : Char} {sep : List Char} :
    ∀ {l : List Char}, c ∈ takeBeforeSep sep l → c ∈ l
  | [], h => h
  | a :: rest, h => by
    rw [takeBeforeSep] at h
    by_cases hs : sep ≠ [] ∧ sep.isPrefixOf (a :: rest)
    · rw [if_pos hs] at h
      exact absurd h (List.not_mem_nil c)
    · rw [if_neg hs] at h
      rcases List.mem_cons.mp h with rfl | h
      · exact List.mem_cons_self c rest
      · exact List.mem_cons_of_mem _ (mem_takeBeforeSep h)

/-- Characters of a replacement result come from the new text or the
input. -/
theorem mem_replaceListF {c : Char} {old new : List Char} :
    ∀ (fuel : Nat) {l : List Char}, c ∈ replaceListF old new fuel l →
      c ∈ new ∨ c ∈ l
  | fuel, [], h => by cases fuel <;> exact absurd h (List.not_mem_nil c)
  | 0, a :: rest, h => Or.inr h
  | fuel + 1, a :: rest, h => by
    rw [replaceListF] at h
    by_cases hp : old ≠ [] ∧ old.isPrefixOf (a :: rest)
    · rw [if_pos hp] at h
      rcases List.mem_append.mp h with h | h
      · exact Or.inl h
      · rcases mem_replaceListF fuel h with h | h
        · exact Or.inl h
        · exact Or.inr (List.mem_of_mem_drop h)
    · rw [if_neg hp] at h
      rcases List.mem_cons.mp h with rfl | h
      · exact Or.inr (List.mem_cons_self c rest)
      · rcases mem_replaceListF fuel h with h | h
        · exact Or.inl h
        · exact Or.inr (List.mem_cons_of_mem _ h)

/-- A backslash-free line yields a backslash-free marker text: the
sanitization only drops characters or introduces `-`. -/
theorem svgMarkerText_no_backslash {s : String} (h : '\\' ∉ s.data) :
    '\\' ∉ (svgMarkerText s).data := by
  intro hc
  have hc1 : '\\' ∈ replaceList ['.'] ['-'] (replaceList ['/'] ['-']
      (takeBeforeSep arrowSep (rstripSet rstripMarkerChars
        (lstripSet lstripMarkerChars s.data)))) := hc
  rcases mem_replaceListF _ hc1 with h1 | h1
  · simp at h1
  rcases mem_replaceListF _ h1 with h2 | h2
  · simp at h2
  exact h (mem_lstripSet (mem_rstripSet (mem_takeBeforeSep h2)))

/-- The substitution introduces no backslash if neither the injected
text nor the line contains one (the fixed template parts do not). -/
theorem classSubF_no_backslash {src : List Char} (hs : '\\' ∉ src) :
    ∀ (fuel : Nat) {l : List Char}, '\\' ∉ l →
      '\\' ∉ classSubF src fuel l
  | fuel, [], _ => by
    cases fuel <;> exact List.not_mem_nil _
  | 0, a :: rest, h => h
  | fuel + 1, a :: rest, h => by
    rw [classSubF]
    by_cases he : edgePat.isPrefixOf (a :: rest) = true
    · rw [if_pos he]
      have htail := @classSubF_no_backslash src hs fuel
        ((a :: rest).drop edgePat.length) (fun hd => h (List.mem_of_mem_drop hd))
      intro hc
      rcases List.mem_append.mp hc with hc | hc
      · rw [edgeRepl] at hc
        rcases List.mem_append.mp hc with hc | hc
        · rcases List.mem_append.mp hc with hc | hc
          · simp at hc
          · exact hs hc
        · simp at hc
      · exact htail hc
    · rw [if_neg he]
      by_cases hn : nodePat.isPrefixOf (a :: rest) = true
      · rw [if_pos hn]
        have htail := @classSubF_no_backslash src hs fuel
          ((a :: rest).drop nodePat.length) (fun hd => h (List.mem_of_mem_drop hd))
        intro hc
        rcases List.mem_append.mp hc with hc | hc
        · rw [nodeRepl] at hc
          rcases List.mem_append.mp hc with hc | hc
          · rcases List.mem_append.mp hc with hc | hc
            · simp at hc
            · exact hs hc
          · simp at hc
        · exact htail hc
      · rw [if_neg hn]
        intro hc
        rcases List.mem_cons.mp hc with rfl | hc
        · exact h (List.mem_cons_self _ rest)
        · exact classSubF_no_backslash hs fuel
            (fun hm => h (List.mem_cons_of_mem _ hm)) hc

/-- If every line that starts with `"<!-- "` is followed by another line
and no line contains a backslash (so no replacement template can raise
or translate escapes), the marker loop runs to completion. -/
theorem annotLoopF_isSome :
    ∀ (fuel : Nat) (file srcs : List String) (i : Nat),
      (∀ j (hj : j < file.length),
        startsWithStr "<!-- " (file.get ⟨j, hj⟩) = true → j + 1 < file.length) →
      (∀ j (hj : j < file.length), '\\' ∉ (file.get ⟨j, hj⟩).data) →
      (annotLoopF fuel file srcs i).isSome = true
  | 0, _, _, _, _, _ => rfl
  | fuel + 1, file, srcs, i, h, hnb => by
    rw [annotLoopF]
    by_cases hi : i < file.length
    · rw [dif_pos hi]
      by_cases hm : startsWithStr "<!-- " (file.get ⟨i, hi⟩) = true
      · rw [if_pos hm]
        have h2 := h i hi hm
        rw [dif_pos h2]
        have hnbs : '\\' ∉ (svgMarkerText (file.get ⟨i, hi⟩)).data :=
          svgMarkerText_no_backslash (hnb i hi)
        have hsub : classSubStr? (svgMarkerText (file.get ⟨i, hi⟩))
            (file.get ⟨i + 1, h2⟩) =
            some (classSubStr (svgMarkerText (file.get ⟨i, hi⟩))
              (file.get ⟨i + 1, h2⟩)) := by
          rw [classSubStr?, if_neg hnbs]
        rw [hsub]
        refine annotLoopF_isSome fuel _ _ _ ?_ ?_
        · intro j hj hmj
          have hj' : j < file.length := by
            rw [List.length_set] at hj
            exact hj
          rw [List.length_set]
          by_cases hji : j = i + 1
          · subst hji
            have hget : ((file.set (i + 1) (classSubStr (svgMarkerText (file.get ⟨i, hi⟩))
                (file.get ⟨i + 1, h2⟩))).get ⟨i + 1, hj⟩) =
                classSubStr (svgMarkerText (file.get ⟨i, hi⟩)) (file.get ⟨i + 1, h2⟩) :=
              List.get_set_eq hj
            rw [hget] at hmj
            exact h (i + 1) h2 (marker_classSubStr hmj)
          · have hget := List.get_set_ne (fun he => hji he.symm)
              (show j < (file.set (i + 1) (classSubStr (svgMarkerText (file.get ⟨i, hi⟩))
                (file.get ⟨i + 1, h2⟩))).length from hj)
            rw [hget] at hmj
            exact h j hj' hmj
        · intro j hj
          have hj' : j < file.length := by
            rw [List.length_set] at hj
            exact hj
          by_cases hji : j = i + 1
          · subst hji
            have hget : ((file.set (i + 1) (classSubStr (svgMarkerText (file.get ⟨i, hi⟩))
                (file.get ⟨i + 1, h2⟩))).get ⟨i + 1, hj⟩) =
                classSubStr (svgMarkerText (file.get ⟨i, hi⟩)) (file.get ⟨i + 1, h2⟩) :=
              List.get_set_eq hj
            rw [hget]
            exact classSubF_no_backslash hnbs _ (hnb (i + 1) h2)
          · have hget := List.get_set_ne (fun he => hji he.symm)
              (show j < (file.set (i + 1) (classSubStr (svgMarkerText (file.get ⟨i, hi⟩))
                (file.get ⟨i + 1, h2⟩))).length from hj)
            rw [hget]
            exact hnb j hj'
      · rw [if_neg hm]
        exact annotLoopF_isSome fuel file srcs (i + 1) h hnb
    · rw [dif_neg hi]
      rfl

/-- Claim C9 counterexample: on a node-only marker the pass does not skip
injection (the following line is rewritten); a marker on the final line
raises `IndexError` (`file[i+1]`); and a marker whose text contains a bad
escape such as `\d` makes `re.sub`'s replacement-template parsing raise
`re.error` even though the marker is not last.  The pass is therefore
neither skipping nor exception-free on malformed input. -/
theorem c9_counterexample :
    (annotLoop c10Doc [] 0).map Prod.fst ≠ some c10Doc ∧
    addSvgStyle ["<!-- b/y -->\n"] = none ∧
    addSvgStyle ["<!-- a\\d -->\n", "<g class=\"node\">\n", "</svg>\n"] = none := by
  refine ⟨by decide, by decide, by decide⟩

/-- Claim C9 (amended): provided no line starting with `"<!-- "` is the
final line of the document and the document contains no backslash (whose
presence can make `re.sub`'s replacement-template parsing raise
`re.error` or translate escapes), the pass raises no exception on any
marker, malformed or not — node-only markers are processed (with
injection, not skipped) — and the whole annotated document is produced. -/
theorem c9_amended {file : List String}
    (h : ∀ i (hi : i < file.length),
      startsWithStr "<!-- " (file.get ⟨i, hi⟩) = true → i + 1 < file.length)
    (hnb : ∀ i (hi : i < file.length), '\\' ∉ (file.get ⟨i, hi⟩).data) :
    (addSvgStyle file).isSome = true := by
  rw [addSvgStyle, annotLoop]
  have hsome := annotLoopF_isSome (file.length - 0) file [] 0 h hnb
  cases hres : annotLoopF (file.length - 0) file [] 0 with
  | none => rw [hres] at hsome; simp at hsome
  | some r => rfl

/-- A well-formed three-line document: edge marker, edge element, root
close. -/
def c9Doc : List String :=
  ["<!-- a/x&#45;&gt;b/y -->\n", "<g class=\"edge\">\n", "</svg>\n"]

/-- Claim C9 witness: the amended statement applied to `c9Doc`. -/
theorem c9_witness :
    (∀ i (hi : i < c9Doc.length),
      startsWithStr "<!-- " (c9Doc.get ⟨i, hi⟩) = true → i + 1 < c9Doc.length) ∧
    (∀ i (hi : i < c9Doc.length), '\\' ∉ (c9Doc.get ⟨i, hi⟩).data) ∧
    (addSvgStyle c9Doc).isSome = true := by
  refine ⟨by decide, by decide, ?_⟩
  exact c9_amended (by decide) (by decide)

/-- Claim C10 counterexample: for the node-only marker line
`"<!-- b/y -->\n"` the injected text is not the sanitized key `"b-y"`:
the trailing `" -->"` survives (the newline blocks `rstrip`), so the next
line differs from the claimed rewriting. -/
theorem c10_counterexample :
    svgMarkerText "<!-- b/y -->\n" = "b-y -->\n" ∧
    ("b-y -->\n" : String) ≠ "b-y" ∧
    (annotLoop c10Doc [] 0).map Prod.fst =
      some ["<!-- b/y -->\n", "<g id=\"node1\" class=\"node b-y -->\n\">\n"] ∧
    ("<g id=\"node1\" class=\"node b-y -->\n\">\n" : String) ≠
      "<g id=\"node1\" class=\"node b-y\">\n" := by
  refine ⟨by decide, by decide, by decide, by decide⟩

/-- Claim C10 (amended): class injection applies uniformly to the line
after every line starting with `"<!-- "`, node-only markers included.
Provided the marker text contains no backslash (backslash sequences are
translated or rejected by `re.sub`'s template parsing, outside the
literal-splice fragment), the injected text is exactly the line stripped
of leading `{<,!,-,space}` characters and trailing `{space,-,>}`
characters, truncated before the first `"&#45;&gt;"`, with `/` and `.`
replaced by `-` — which, on a node-only marker ending in a newline,
retains `" -->"` and the newline, the sanitized key remaining the first
whitespace-delimited token. -/
theorem c10_amended {file srcs : List String} {i : Nat} (h : i < file.length)
    (h2 : i + 1 < file.length)
    (hm : startsWithStr "<!-- " (file.get ⟨i, h⟩) = true)
    (hnb : '\\' ∉ (svgMarkerText (file.get ⟨i, h⟩)).data) :
    classSubStr? (svgMarkerText (file.get ⟨i, h⟩)) (file.get ⟨i + 1, h2⟩) =
      some (classSubStr (svgMarkerText (file.get ⟨i, h⟩)) (file.get ⟨i + 1, h2⟩)) ∧
    annotLoop file srcs i =
      annotLoop (file.set (i + 1)
          (classSubStr (svgMarkerText (file.get ⟨i, h⟩)) (file.get ⟨i + 1, h2⟩)))
        (if svgMarkerText (file.get ⟨i, h⟩) ∈ srcs then srcs
         else srcs ++ [svgMarkerText (file.get ⟨i, h⟩)]) (i + 1) := by
  have hsub : classSubStr? (svgMarkerText (file.get ⟨i, h⟩)) (file.get ⟨i + 1, h2⟩) =
      some (classSubStr (svgMarkerText (file.get ⟨i, h⟩)) (file.get ⟨i + 1, h2⟩)) := by
    rw [classSubStr?, if_neg hnb]
  refine ⟨hsub, ?_⟩
  rw [annotLoop, annotLoop]
  have hf : file.length - i = (file.length - (i + 1)) + 1 := by omega
  rw [hf, annotLoopF, dif_pos h, if_pos hm, dif_pos h2, hsub]
  rw [List.length_set]

/-- Claim C10 witness: the amended step equation at `c10Doc`, index 0. -/
theorem c10_witness :
    ∃ h : (0 : Nat) < c10Doc.length, ∃ h2 : 0 + 1 < c10Doc.length,
      startsWithStr "<!-- " (c10Doc.get ⟨0, h⟩) = true ∧
      '\\' ∉ (svgMarkerText (c10Doc.get ⟨0, h⟩)).data ∧
      annotLoop c10Doc [] 0 =
        annotLoop (c10Doc.set (0 + 1)
            (classSubStr (svgMarkerText (c10Doc.get ⟨0, h⟩)) (c10Doc.get ⟨0 + 1, h2⟩)))
          (if svgMarkerText (c10Doc.get ⟨0, h⟩) ∈ ([] : List String) then []
           else [] ++ [svgMarkerText (c10Doc.get ⟨0, h⟩)]) (0 + 1) := by
  refine ⟨by decide, by decide, by decide, by decide, ?_⟩
  exact (c10_amended (by decide) (by decide) (by decide) (by decide)).2

end FileDAG
